import Mathlib

/-!
Shallow embedding of the era-detection and clustering engine of the
go-spotify-era-organizer repository, together with proofs of the spec's
claims about it.

Go `time.Time` values are modelled by their nanosecond timestamp as an
`Int` (`AddedAt.Compare` and `Sub` become integer comparison and
subtraction); Go `time.Duration` is likewise an `Int` in nanoseconds.
Go slices are modelled by Lean lists.  `slices.SortFunc` and
`sort.Slice` (unstable comparison sorts) are modelled by
`List.insertionSort`, one admissible implementation of a comparison
sort for the given comparator.
-/

namespace SpotifyEras

/-- Tag represents a music tag with popularity count (clustering package). -/
structure Tag where
  name : String
  count : Int
deriving DecidableEq, Repr, Inhabited

/-- Track represents a song with its metadata, add timestamp and tags. -/
structure Track where
  id : String
  name : String
  artist : String
  addedAt : Int
  tags : List Tag
deriving DecidableEq, Repr, Inhabited

/-- Era represents a cluster of tracks added during a time period. -/
structure Era where
  tracks : List Track
  startDate : Int
  endDate : Int
  splitIndex : Int
  splitTotal : Int
deriving DecidableEq, Repr, Inhabited

/-- Config holds the gap-clustering parameters. -/
structure Config where
  gapThreshold : Int
  minClusterSize : Int
  maxTracks : Int
  outlierMode : String
deriving DecidableEq, Repr, Inhabited

/-- DefaultConfig returns the recommended default configuration. -/
def DefaultConfig : Config :=
  { gapThreshold := 7 * 24 * 3600 * 1000000000
    minClusterSize := 3
    maxTracks := 30
    outlierMode := "skip" }

/-- The comparator of DetectEras: sort tracks ascending by AddedAt. -/
def trackLE (a b : Track) : Prop := a.addedAt ≤ b.addedAt

instance : DecidableRel trackLE :=
  fun a b => inferInstanceAs (Decidable (a.addedAt ≤ b.addedAt))

instance : IsTotal Track trackLE := ⟨fun a b => le_total a.addedAt b.addedAt⟩

instance : IsTrans Track trackLE := ⟨fun _ _ _ h1 h2 => le_trans h1 h2⟩

/-- A comparator ordering pairs by their second component, largest
first: the shape of the descending sorts in splitEra (gaps by
duration), buildTagVocabulary (tags by aggregate count) and
extractTopTags (vocabulary entries by centroid weight). -/
def sndDesc {α β : Type} [LE β] (a b : α × β) : Prop := b.2 ≤ a.2

instance {α β : Type} [LinearOrder β] : DecidableRel (@sndDesc α β _) :=
  fun a b => inferInstanceAs (Decidable (b.2 ≤ a.2))

instance {α β : Type} [LinearOrder β] : IsTotal (α × β) sndDesc :=
  ⟨fun a b => le_total b.2 a.2⟩

instance {α β : Type} [LinearOrder β] : IsTrans (α × β) sndDesc :=
  ⟨fun _ _ _ h1 h2 => le_trans h2 h1⟩

/-- The sorted copy made at the top of DetectEras. -/
def sortTracks (tracks : List Track) : List Track :=
  List.insertionSort trackLE tracks

/-- The gap-walking loop of DetectEras: `prev` is the previously seen
track, `current` the run being accumulated; a gap `>= gapThreshold`
closes the current run and starts a new one. -/
def buildClustersAux (gapThreshold : Int) : List Track → Track → List Track →
    List (List Track)
  | [], _, current => [current]
  | t :: rest, prev, current =>
    if gapThreshold ≤ t.addedAt - prev.addedAt then
      current :: buildClustersAux gapThreshold rest t [t]
    else
      buildClustersAux gapThreshold rest t (current ++ [t])

/-- Build an Era from a run: StartDate and EndDate are the first and last
member's timestamps (runs are always nonempty where this is used). -/
def mkEra (cluster : List Track) : Era :=
  { tracks := cluster
    startDate := ((cluster.head?).map Track.addedAt).getD 0
    endDate := ((cluster.getLast?).map Track.addedAt).getD 0
    splitIndex := 0
    splitTotal := 0 }

/-- The filtering loop of DetectEras: runs of size `>= minClusterSize`
become eras, smaller runs are appended wholesale to the outliers. -/
def classifyClusters (minClusterSize : Int) : List (List Track) →
    List Era × List Track
  | [] => ([], [])
  | c :: rest =>
    let r := classifyClusters minClusterSize rest
    if minClusterSize ≤ (c.length : Int) then
      (mkEra c :: r.1, r.2)
    else
      (r.1, c ++ r.2)

/-- DetectEras groups tracks into temporal eras based on add dates.
Returns valid eras and outlier tracks that did not fit into any era. -/
def DetectEras (tracks : List Track) (cfg : Config) : List Era × List Track :=
  if tracks.isEmpty then ([], [])
  else
    match sortTracks tracks with
    | [] => ([], [])
    | s0 :: rest =>
      classifyClusters cfg.minClusterSize
        (buildClustersAux cfg.gapThreshold rest s0 [s0])

/-- DetectEras with the caller's slice threaded explicitly: the second
component is the content of the caller's slice after the call.  The
source copies the input (`make` + `copy`) before sorting, so the
caller's slice is never written. -/
def DetectErasImp (tracks : List Track) (cfg : Config) :
    (List Era × List Track) × List Track :=
  if tracks.isEmpty then (([], []), tracks)
  else
    match sortTracks tracks with
    | [] => (([], []), tracks)
    | s0 :: rest =>
      (classifyClusters cfg.minClusterSize
        (buildClustersAux cfg.gapThreshold rest s0 [s0]), tracks)

/-- The inter-track gaps of an era: for each i in [1, n-1] the pair
(i, tracks[i].AddedAt - tracks[i-1].AddedAt), mirroring gapInfo. -/
def gapsOf (tracks : List Track) : List (Nat × Int) :=
  (tracks.zip tracks.tail).enum.map
    (fun p => (p.1 + 1, p.2.2.addedAt - p.2.1.addedAt))

/-- The selection step of splitEra: the indices of the `numSplits`
largest gaps (gaps sorted by duration, largest first, top entries taken). -/
def splitCuts (tracks : List Track) (numSplits : Nat) : List Nat :=
  (((gapsOf tracks).insertionSort sndDesc).take numSplits).map Prod.fst

/-- The slicing loop of splitEra: successive `tracks[start:end]` slices,
where each cut index is an `end` and the final slice runs to the end. -/
def sliceSegments (tracks : List Track) (start : Nat) :
    List Nat → List (List Track)
  | [] => [tracks.drop start]
  | c :: rest => (tracks.drop start).take (c - start) :: sliceSegments tracks c rest

/-- splitEra splits a single era into sub-eras at natural gap boundaries. -/
def splitEra (era : Era) (maxTracks : Int) : List Era :=
  let tracks := era.tracks
  let numTracks : Int := tracks.length
  let numSubEras := Int.tdiv (numTracks + maxTracks - 1) maxTracks
  let numSplits := numSubEras - 1
  if numSplits = 0 then [era]
  else
    let splitIndices := splitCuts tracks numSplits.toNat
    let sortedIndices := splitIndices.insertionSort (fun a b => a ≤ b)
    let segments := sliceSegments tracks 0 sortedIndices
    segments.enum.map (fun p =>
      { tracks := p.2
        startDate := ((p.2.head?).map Track.addedAt).getD 0
        endDate := ((p.2.getLast?).map Track.addedAt).getD 0
        splitIndex := (p.1 : Int) + 1
        splitTotal := numSubEras })

/-- The per-era loop of SplitLargeEras: eras small enough are kept
as-is in place, oversized ones are replaced by their sub-eras. -/
def splitLoop : List Era → Int → List Era
  | [], _ => []
  | era :: rest, maxTracks =>
    if (era.tracks.length : Int) ≤ maxTracks then
      era :: splitLoop rest maxTracks
    else
      splitEra era maxTracks ++ splitLoop rest maxTracks

/-- SplitLargeEras splits eras that exceed maxTracks into smaller
sub-eras; if maxTracks is 0 or negative, no splitting is performed. -/
def SplitLargeEras (eras : List Era) (maxTracks : Int) : List Era :=
  if maxTracks ≤ 0 then eras
  else splitLoop eras maxTracks

/-- TagClusterConfig holds tag-based clustering parameters. -/
structure TagClusterConfig where
  numClusters : Int
  minClusterSize : Int
  maxTags : Int
deriving DecidableEq, Repr, Inhabited

/-- DefaultTagClusterConfig returns the recommended default configuration. -/
def DefaultTagClusterConfig : TagClusterConfig :=
  { numClusters := 3, minClusterSize := 3, maxTags := 50 }

/-- MoodEra represents a cluster of tracks grouped by tag similarity. -/
structure MoodEra where
  name : String
  tracks : List Track
  topTags : List String
  startDate : Int
  endDate : Int
deriving DecidableEq, Repr, Inhabited

/-- The len(t.Tags) > 0 test separating valid tracks from tag-less ones. -/
def hasTags (t : Track) : Bool := !t.tags.isEmpty

/-- Lower-casing of tag names (Go strings.ToLower), modelled as a
character-wise map. -/
def strToLower (s : String) : String := String.mk (s.data.map Char.toLower)

/-- counts[name] += count on an association list keyed by tag name,
mirroring the Go map update in buildTagVocabulary. -/
def bumpCount : List (String × Int) → String → Int → List (String × Int)
  | [], name, c => [(name, c)]
  | (n, k) :: rest, name, c =>
    if n = name then (n, k + c) :: rest else (n, k) :: bumpCount rest name c

/-- The tag-occurrence counting loop of buildTagVocabulary: aggregate
each (lower-cased) tag name's total count across all tracks. -/
def tagCounts (tracks : List Track) : List (String × Int) :=
  tracks.foldl
    (fun m t => t.tags.foldl (fun m2 tag => bumpCount m2 (strToLower tag.name) tag.count) m)
    []

/-- buildTagVocabulary collects all tags and returns the top N most common. -/
def buildTagVocabulary (tracks : List Track) (maxTags : Int) : List String :=
  let tcs := tagCounts tracks
  let sorted := tcs.insertionSort sndDesc
  let n := min maxTags (sorted.length : Int)
  (sorted.take n.toNat).map Prod.fst

/-- The per-tag update of buildTagVector: if the (lower-cased) tag name
is in the vocabulary, set that coordinate to the count normalized by the
track's maximum count; otherwise leave the vector unchanged. -/
def applyTag (vocabulary : List String) (maxCount : Int) (v : List ℚ)
    (tag : Tag) : List ℚ :=
  match vocabulary.indexOf? (strToLower tag.name) with
  | some idx => v.set idx ((tag.count : ℚ) / (maxCount : ℚ))
  | none => v

/-- buildTagVector creates a feature vector for a track based on its
tags; values are the track's tag counts normalized to a 0-1 scale by the
track's own maximum count. -/
def buildTagVector (track : Track) (vocabulary : List String) : List ℚ :=
  let maxCount := track.tags.foldl
    (fun m tag => if m < tag.count then tag.count else m) 0
  let maxCount := if maxCount = 0 then 1 else maxCount
  track.tags.foldl (applyTag vocabulary maxCount)
    (List.replicate vocabulary.length 0)

/-- extractTopTags returns the top n tags from a centroid vector:
vocabulary entries sorted by centroid weight descending, keeping those
of weight strictly greater than zero, at most n of them. -/
def extractTopTags (centroid : List ℚ) (vocabulary : List String) (n : Nat) :
    List String :=
  if centroid.isEmpty || vocabulary.isEmpty then []
  else
    let weights := vocabulary.enum.map (fun p => (p.2, centroid.getD p.1 0))
    let sorted := weights.insertionSort sndDesc
    ((sorted.filter (fun w => decide (0 < w.2))).take n).map Prod.fst

/-- generateEraName creates a descriptive name from top tags and the
date range; `formatDate` stands for Go's location-dependent
`time.Time.Format("Jan 2, 2006")`. -/
def generateEraName (formatDate : Int → String) (topTags : List String)
    (start finish : Int) : String :=
  let tagPart := if topTags.isEmpty then "Mixed" else String.intercalate " & " topTags
  let startStr := formatDate start
  let endStr := formatDate finish
  if startStr = endStr then tagPart ++ ": " ++ startStr
  else tagPart ++ ": " ++ startStr ++ " - " ++ endStr

/-- The environment of DetectMoodEras: `km` stands for the third-party
`kmeans.New().Partition` call (an iterative floating-point procedure
with randomized initialization, external to this repository), returning
either an error or a list of clusters, each a centroid plus the tracks
of its observations; `formatDate` stands for Go's time formatting. -/
structure MoodEnv where
  km : List (Track × List ℚ) → Int → Except Unit (List (List ℚ × List Track))
  formatDate : Int → String

/-- The cluster-consumption loop of DetectMoodEras: clusters smaller
than minClusterSize are moved wholesale to the outliers, the rest become
MoodEras with members sorted ascending by AddedAt. -/
def buildMoodEras (formatDate : Int → String) (vocabulary : List String)
    (minClusterSize : Int) :
    List (List ℚ × List Track) → List MoodEra × List Track
  | [] => ([], [])
  | (center, ctracks) :: rest =>
    let r := buildMoodEras formatDate vocabulary minClusterSize rest
    if (ctracks.length : Int) < minClusterSize then
      (r.1, ctracks ++ r.2)
    else
      let sorted := ctracks.insertionSort trackLE
      let topTags := extractTopTags center vocabulary 3
      let startDate := ((sorted.head?).map Track.addedAt).getD 0
      let endDate := ((sorted.getLast?).map Track.addedAt).getD 0
      ({ name := generateEraName formatDate topTags startDate endDate
         tracks := sorted
         topTags := topTags
         startDate := startDate
         endDate := endDate } :: r.1, r.2)

/-- The comparator sorting MoodEras by start date, most recent first. -/
def moodEraGE (a b : MoodEra) : Prop := b.startDate ≤ a.startDate

instance : DecidableRel moodEraGE :=
  fun a b => inferInstanceAs (Decidable (b.startDate ≤ a.startDate))

instance : IsTotal MoodEra moodEraGE := ⟨fun a b => le_total b.startDate a.startDate⟩

instance : IsTrans MoodEra moodEraGE := ⟨fun _ _ _ h1 h2 => le_trans h2 h1⟩

/-- DetectMoodEras groups tracks by tag similarity using k-means
clustering; returns mood-based eras and outlier tracks.  Tracks without
tags are treated as outliers. -/
def DetectMoodEras (env : MoodEnv) (tracks : List Track)
    (cfg : TagClusterConfig) : List MoodEra × List Track :=
  if tracks.isEmpty then ([], [])
  else
    let numClusters := if cfg.numClusters ≤ 0 then DefaultTagClusterConfig.numClusters
      else cfg.numClusters
    let maxTags := if cfg.maxTags ≤ 0 then DefaultTagClusterConfig.maxTags
      else cfg.maxTags
    let validTracks := tracks.filter hasTags
    let noTags := tracks.filter (fun t => !hasTags t)
    if (validTracks.length : Int) < numClusters then ([], validTracks ++ noTags)
    else
      let vocabulary := buildTagVocabulary validTracks maxTags
      if vocabulary.isEmpty then ([], validTracks ++ noTags)
      else
        let observations := validTracks.map (fun t => (t, buildTagVector t vocabulary))
        match env.km observations numClusters with
        | Except.error _ => ([], validTracks ++ noTags)
        | Except.ok result =>
          let r := buildMoodEras env.formatDate vocabulary cfg.minClusterSize result
          (r.1.insertionSort moodEraGE, r.2 ++ noTags)

/-- DetectMoodEras with the caller's slice threaded explicitly: the
second component is the content of the caller's slice after the call.
The source reads the input through pointers and sorts only fresh
per-cluster copies, so the caller's slice is never written. -/
def DetectMoodErasImp (env : MoodEnv) (tracks : List Track)
    (cfg : TagClusterConfig) : (List MoodEra × List Track) × List Track :=
  (DetectMoodEras env tracks cfg, tracks)

namespace TagsService

/-- lastfm.Tag: a Last.fm tag with popularity count and URL. -/
structure LfmTag where
  name : String
  count : Int
  url : String
deriving DecidableEq, Repr, Inhabited

/-- tags.Track: the minimal track info needed for tag lookup. -/
structure Track where
  id : String
  name : String
  artist : String
deriving DecidableEq, Repr, Inhabited

/-- tags.TrackTags: the tags fetched for a track, with a source
classification ("track", "artist" or "none") and a nullable error. -/
structure TrackTags where
  trackID : String
  tags : List LfmTag
  source : String
  error : Option String
deriving DecidableEq, Repr, Inhabited

/-- The work done by a worker for one work item of FetchTagsForTracks:
if the cancellation signal was observed before the fetch, record the
context error; otherwise fetch and classify.  `fetch` stands for the
TagFetcher collaborator (s.fetcher.GetTags, taking artist then name),
`cancelObserved` for whether the select on ctx.Done fired for this item,
and `ctxErr` for ctx.Err() at that moment. -/
def fetchOne (fetch : String → String → Except String (List LfmTag))
    (cancelObserved : Bool) (ctxErr : String) (t : Track) : TrackTags :=
  if cancelObserved then
    { trackID := t.id, tags := [], source := "none", error := some ctxErr }
  else
    match fetch t.artist t.name with
    | Except.error e =>
      { trackID := t.id, tags := [], source := "none", error := some e }
    | Except.ok tags =>
      { trackID := t.id, tags := tags
        source := if tags.isEmpty then "none" else "track"
        error := none }

/-- FetchTagsForTracks fetches tags for multiple tracks via a worker
pool writing into index-addressed result slots; each slot `i` is written
exactly once, by whichever worker drains work item `i`, so the result
array content is the per-index function `fetchOne` of the corresponding
input track alone, independent of worker interleaving.  The
nondeterministic schedule is abstracted by `cancelObserved : Nat → Bool`
(whether item i's pre-fetch cancellation check fired) and
`finalCancelled` (whether ctx.Err() was non-nil after all workers
joined). -/
def FetchTagsForTracks (fetch : String → String → Except String (List LfmTag))
    (cancelObserved : Nat → Bool) (ctxErr : String) (finalCancelled : Bool)
    (tracks : List Track) : List TrackTags × Option String :=
  if tracks.isEmpty then ([], none)
  else
    let results := tracks.enum.map
      (fun p => fetchOne fetch (cancelObserved p.1) ctxErr p.2)
    (results, if finalCancelled then some ctxErr else none)

end TagsService

-- Concrete inputs used by the witnesses and counterexamples below.

/-- One day in nanoseconds (the unit of the Go Duration literals). -/
def day : Int := 86400000000000

/-- A track with no tags at the given timestamp. -/
def mkT (id : String) (t : Int) : Track :=
  { id := id, name := "", artist := "", addedAt := t, tags := [] }

/-- A track carrying one zero-weight tag. -/
def mkZ (id : String) (t : Int) : Track :=
  { id := id, name := "", artist := "", addedAt := t
    tags := [{ name := "rock", count := 0 }] }

/-- A track carrying one positively weighted tag. -/
def mkR (id : String) (t : Int) : Track :=
  { id := id, name := "", artist := "", addedAt := t
    tags := [{ name := "rock", count := 5 }] }

/-- A gap-clustering configuration with the default 7-day threshold and
minimum cluster size 3. -/
def cfgEx : Config :=
  { gapThreshold := 7 * day, minClusterSize := 3, maxTracks := 0
    outlierMode := "skip" }

/-- Tracks added on days 0, 1, 2 and 9, 10, 11. -/
def exDays : List Track :=
  [mkT "1" 0, mkT "2" day, mkT "3" (2 * day),
   mkT "4" (9 * day), mkT "5" (10 * day), mkT "6" (11 * day)]

/-- Tracks added on days 0, 1, 2, then one second under day 9, then day 10. -/
def exDaysNear : List Track :=
  [mkT "1" 0, mkT "2" day, mkT "3" (2 * day),
   mkT "4" (9 * day - 1000000000), mkT "5" (10 * day)]

/-- An era of 12 tracks whose single largest internal gap sits right
after the first track. -/
def eraSkewed : Era :=
  mkEra [mkT "a" 0, mkT "b" 100, mkT "c" 101, mkT "d" 102, mkT "e" 103,
         mkT "f" 104, mkT "g" 105, mkT "h" 106, mkT "i" 107, mkT "j" 108,
         mkT "k" 109, mkT "l" 110]

/-- An era of 12 tracks with a single large internal gap between the
5th and 6th tracks. -/
def eraBalanced : Era :=
  mkEra [mkT "a" 0, mkT "b" 1, mkT "c" 2, mkT "d" 3, mkT "e" 4,
         mkT "f" 1000, mkT "g" 1001, mkT "h" 1002, mkT "i" 1003,
         mkT "j" 1004, mkT "k" 1005, mkT "l" 1006]

/-- Three tracks, each with one tag of weight zero. -/
def ztracks : List Track := [mkZ "1" 1, mkZ "2" 2, mkZ "3" 3]

/-- Three tracks, each with one positively weighted tag. -/
def exMood : List Track := [mkR "1" 30, mkR "2" 10, mkR "3" 20]

/-- A concrete clustering environment: a k-means stand-in that puts all
observations into a single cluster with an empty centroid, and a
constant date formatter. -/
def envTriv : MoodEnv :=
  { km := fun obs _ => Except.ok [([], obs.map Prod.fst)]
    formatDate := fun _ => "Jan 1, 2024" }

/-- A fetcher that fails for artist "bad" and returns one tag otherwise. -/
def fetchEx : String → String → Except String (List TagsService.LfmTag) :=
  fun artist _ =>
    if artist = "bad" then Except.error "lookup failed"
    else Except.ok [{ name := "rock", count := 1, url := "u" }]

/-- Two tracks for the tag service, the second of which fails to fetch. -/
def tracksEx : List TagsService.Track :=
  [{ id := "1", name := "n1", artist := "good" },
   { id := "2", name := "n2", artist := "bad" }]

-- Basic lemmas about the gap-walking loop.

theorem buildClustersAux_flatten (gapThreshold : Int) :
    ∀ (rest : List Track) (prev : Track) (current : List Track),
      (buildClustersAux gapThreshold rest prev current).flatten = current ++ rest := by
  intro rest
  induction rest with
  | nil => intro prev current; simp [buildClustersAux]
  | cons t rest ih =>
    intro prev current
    by_cases h : gapThreshold ≤ t.addedAt - prev.addedAt
    · simp [buildClustersAux, h, ih]
    · simp [buildClustersAux, h, ih]

theorem buildClustersAux_ne_nil (gapThreshold : Int) :
    ∀ (rest : List Track) (prev : Track) (current : List Track),
      ∀ c ∈ buildClustersAux gapThreshold rest prev current,
        current ≠ [] → c ≠ [] := by
  intro rest
  induction rest with
  | nil =>
    intro prev current c hc hcur
    simp [buildClustersAux] at hc
    simpa [hc] using hcur
  | cons t rest ih =>
    intro prev current c hc hcur
    by_cases h : gapThreshold ≤ t.addedAt - prev.addedAt
    · simp [buildClustersAux, h] at hc
      rcases hc with hc | hc
      · simpa [hc] using hcur
      · exact ih t [t] c hc (by simp)
    · simp [buildClustersAux, h] at hc
      exact ih t (current ++ [t]) c hc (by simp)

-- The filtering loop as filters.

theorem classifyClusters_fst (minClusterSize : Int) :
    ∀ clusters : List (List Track),
      (classifyClusters minClusterSize clusters).1.map Era.tracks =
        clusters.filter (fun c => decide (minClusterSize ≤ (c.length : Int))) := by
  intro clusters
  induction clusters with
  | nil => simp [classifyClusters]
  | cons c rest ih =>
    by_cases h : minClusterSize ≤ (c.length : Int)
    · simp [classifyClusters, h, ih, mkEra]
    · simp [classifyClusters, h, ih]

theorem classifyClusters_snd (minClusterSize : Int) :
    ∀ clusters : List (List Track),
      (classifyClusters minClusterSize clusters).2 =
        (clusters.filter (fun c => decide ((c.length : Int) < minClusterSize))).flatten := by
  intro clusters
  induction clusters with
  | nil => simp [classifyClusters]
  | cons c rest ih =>
    by_cases h : minClusterSize ≤ (c.length : Int)
    · have h2 : ¬ ((c.length : Int) < minClusterSize) := not_lt.mpr h
      simp [classifyClusters, h, h2, ih]
    · have h2 : (c.length : Int) < minClusterSize := not_le.mp h
      simp [classifyClusters, h, h2, ih]


-- The track sort.

theorem sortTracks_perm (l : List Track) : (sortTracks l).Perm l :=
  List.perm_insertionSort trackLE l

theorem sortTracks_sorted (l : List Track) :
    List.Pairwise (fun a b : Track => a.addedAt ≤ b.addedAt) (sortTracks l) :=
  List.sorted_insertionSort trackLE l

-- Structure of the runs produced by the gap walk.

theorem buildClustersAux_within (gapThreshold : Int) :
    ∀ (rest : List Track) (prev : Track) (current : List Track),
      current.getLast? = some prev →
      List.Chain' (fun a b => b.addedAt - a.addedAt < gapThreshold) current →
      ∀ c ∈ buildClustersAux gapThreshold rest prev current,
        List.Chain' (fun a b => b.addedAt - a.addedAt < gapThreshold) c := by
  intro rest
  induction rest with
  | nil =>
    intro prev current _ hchain c hc
    simp [buildClustersAux] at hc
    simpa [hc] using hchain
  | cons t rest ih =>
    intro prev current hlast hchain c hc
    by_cases h : gapThreshold ≤ t.addedAt - prev.addedAt
    · simp only [buildClustersAux, if_pos h, List.mem_cons] at hc
      rcases hc with hc | hc
      · simpa [hc] using hchain
      · exact ih t [t] (by simp) (by simp) c hc
    · simp only [buildClustersAux, if_neg h] at hc
      refine ih t (current ++ [t]) (by simp) ?_ c hc
      refine List.chain'_append.mpr ⟨hchain, by simp, ?_⟩
      intro x hx y hy
      rw [hlast] at hx
      simp at hx hy
      subst hx; subst hy
      omega

theorem buildClustersAux_head (gapThreshold : Int) :
    ∀ (rest : List Track) (prev : Track) (current : List Track),
      ∃ s cs, buildClustersAux gapThreshold rest prev current = (current ++ s) :: cs := by
  intro rest
  induction rest with
  | nil =>
    intro prev current
    exact ⟨[], [], by simp [buildClustersAux]⟩
  | cons t rest ih =>
    intro prev current
    by_cases h : gapThreshold ≤ t.addedAt - prev.addedAt
    · exact ⟨[], buildClustersAux gapThreshold rest t [t],
        by simp [buildClustersAux, h]⟩
    · obtain ⟨s, cs, hs⟩ := ih t (current ++ [t])
      exact ⟨t :: s, cs, by simp [buildClustersAux, h, hs]⟩

theorem buildClustersAux_between (gapThreshold : Int) :
    ∀ (rest : List Track) (prev : Track) (current : List Track),
      current.getLast? = some prev →
      List.Chain'
        (fun c d => ∀ x ∈ c.getLast?, ∀ y ∈ d.head?,
          gapThreshold ≤ y.addedAt - x.addedAt)
        (buildClustersAux gapThreshold rest prev current) := by
  intro rest
  induction rest with
  | nil =>
    intro prev current _
    simp [buildClustersAux]
  | cons t rest ih =>
    intro prev current hlast
    by_cases h : gapThreshold ≤ t.addedAt - prev.addedAt
    · simp only [buildClustersAux, if_pos h]
      refine List.chain'_cons'.mpr ⟨?_, ih t [t] (by simp)⟩
      intro d hd x hx y hy
      obtain ⟨s, cs, hs⟩ := buildClustersAux_head gapThreshold rest t [t]
      rw [hs] at hd
      simp at hd
      rw [hlast] at hx
      simp at hx
      subst hx
      subst hd
      simp at hy
      subst hy
      exact h
    · simp only [buildClustersAux, if_neg h]
      exact ih t (current ++ [t]) (by simp)

/-- Claim C5: in DetectEras, after sorting ascending by AddedAt, a new
run starts at position i exactly when the gap to the previous track is
at least gapThreshold: the runs concatenate back to the sorted input,
every adjacent pair inside a run has gap strictly below the threshold,
and the gap across every run boundary is at least the threshold.
Concretely, tracks at days 0,1,2 and 9,10,11 with a 7-day threshold and
minClusterSize 3 yield two eras of three and no outliers, while
shrinking the second group's gap to one second under 7 days yields a
single era of five. -/
theorem claim_C5 (gapThreshold : Int) (s0 : Track) (rest : List Track) :
    (buildClustersAux gapThreshold rest s0 [s0]).flatten = s0 :: rest ∧
    (∀ c ∈ buildClustersAux gapThreshold rest s0 [s0],
      List.Chain' (fun a b => b.addedAt - a.addedAt < gapThreshold) c) ∧
    List.Chain'
      (fun c d => ∀ x ∈ c.getLast?, ∀ y ∈ d.head?,
        gapThreshold ≤ y.addedAt - x.addedAt)
      (buildClustersAux gapThreshold rest s0 [s0]) ∧
    (DetectEras exDays cfgEx).1.map (fun e => e.tracks.length) = [3, 3] ∧
    (DetectEras exDays cfgEx).2 = [] ∧
    (DetectEras exDaysNear cfgEx).1.map (fun e => e.tracks.length) = [5] ∧
    (DetectEras exDaysNear cfgEx).2 = [] := by
  refine ⟨buildClustersAux_flatten gapThreshold rest s0 [s0],
    buildClustersAux_within gapThreshold rest s0 [s0] (by simp) (by simp),
    buildClustersAux_between gapThreshold rest s0 [s0] (by simp),
    ?_, ?_, ?_, ?_⟩ <;> decide

theorem classifyClusters_fst_eq (minClusterSize : Int) :
    ∀ clusters : List (List Track),
      (classifyClusters minClusterSize clusters).1 =
        (clusters.filter (fun c => decide (minClusterSize ≤ (c.length : Int)))).map mkEra := by
  intro clusters
  induction clusters with
  | nil => simp [classifyClusters]
  | cons c rest ih =>
    by_cases h : minClusterSize ≤ (c.length : Int)
    · simp [classifyClusters, h, ih]
    · simp [classifyClusters, h, ih]

theorem detectEras_eq (tracks : List Track) (cfg : Config) (s0 : Track)
    (rest : List Track) (h : sortTracks tracks = s0 :: rest) :
    DetectEras tracks cfg =
      classifyClusters cfg.minClusterSize
        (buildClustersAux cfg.gapThreshold rest s0 [s0]) := by
  have hne : tracks.isEmpty = false := by
    cases tracks with
    | nil => simp [sortTracks, List.insertionSort] at h
    | cons a l => rfl
  unfold DetectEras
  rw [hne, h]
  rfl

theorem sortTracks_eq_nil (tracks : List Track) (h : sortTracks tracks = []) :
    tracks = [] := by
  have hp := sortTracks_perm tracks
  rw [h] at hp
  exact hp.symm.eq_nil

theorem buildMoodEras_tracks_sorted (formatDate : Int → String)
    (vocabulary : List String) (minClusterSize : Int) :
    ∀ cls, ∀ e ∈ (buildMoodEras formatDate vocabulary minClusterSize cls).1,
      List.Pairwise (fun a b : Track => a.addedAt ≤ b.addedAt) e.tracks := by
  intro cls
  induction cls with
  | nil => simp [buildMoodEras]
  | cons hd rest ih =>
    obtain ⟨center, ctracks⟩ := hd
    intro e he
    by_cases h : (ctracks.length : Int) < minClusterSize
    · simp only [buildMoodEras, if_pos h] at he
      exact ih e he
    · simp only [buildMoodEras, if_neg h, List.mem_cons] at he
      rcases he with he | he
      · subst he
        exact List.sorted_insertionSort trackLE ctracks
      · exact ih e he

/-- Claim C3 (amended): within each returned era the members are in
non-decreasing order of AddedAt, for both DetectEras and
DetectMoodEras; DetectMoodEras returns its era list sorted by StartDate
descending, but DetectEras returns its era list sorted by StartDate
ascending (chronological order, oldest era first), not descending. -/
theorem claim_C3 (tracks : List Track) (cfg : Config) (env : MoodEnv)
    (mtracks : List Track) (mcfg : TagClusterConfig) :
    (∀ e ∈ (DetectEras tracks cfg).1,
      List.Pairwise (fun a b : Track => a.addedAt ≤ b.addedAt) e.tracks) ∧
    List.Pairwise (fun a b : Era => a.startDate ≤ b.startDate)
      (DetectEras tracks cfg).1 ∧
    (∀ e ∈ (DetectMoodEras env mtracks mcfg).1,
      List.Pairwise (fun a b : Track => a.addedAt ≤ b.addedAt) e.tracks) ∧
    List.Pairwise (fun a b : MoodEra => b.startDate ≤ a.startDate)
      (DetectMoodEras env mtracks mcfg).1 := by
  have heras : (∀ e ∈ (DetectEras tracks cfg).1,
      List.Pairwise (fun a b : Track => a.addedAt ≤ b.addedAt) e.tracks) ∧
      List.Pairwise (fun a b : Era => a.startDate ≤ b.startDate)
        (DetectEras tracks cfg).1 := by
    cases hs : sortTracks tracks with
    | nil =>
      have := sortTracks_eq_nil tracks hs
      subst this
      simp [DetectEras]
    | cons s0 rest =>
      rw [detectEras_eq tracks cfg s0 rest hs, classifyClusters_fst_eq]
      have hsorted : List.Pairwise (fun a b : Track => a.addedAt ≤ b.addedAt)
          (buildClustersAux cfg.gapThreshold rest s0 [s0]).flatten := by
        rw [buildClustersAux_flatten, List.singleton_append, ← hs]
        exact sortTracks_sorted tracks
      obtain ⟨hwithin, hbetween⟩ := List.pairwise_flatten.mp hsorted
      constructor
      · intro e he
        simp only [List.mem_map] at he
        obtain ⟨c, hc, rfl⟩ := he
        exact hwithin c (List.mem_of_mem_filter hc)
      · rw [List.pairwise_map]
        refine List.Pairwise.imp_of_mem ?_
          (hbetween.sublist (List.filter_sublist _))
        intro c d hc hd hcd
        have hcne : c ≠ [] := buildClustersAux_ne_nil cfg.gapThreshold rest s0 [s0]
          c (List.mem_of_mem_filter hc) (by simp)
        have hdne : d ≠ [] := buildClustersAux_ne_nil cfg.gapThreshold rest s0 [s0]
          d (List.mem_of_mem_filter hd) (by simp)
        cases c with
        | nil => exact absurd rfl hcne
        | cons c0 ctl =>
          cases d with
          | nil => exact absurd rfl hdne
          | cons d0 dtl =>
            simpa [mkEra] using hcd c0 (by simp) d0 (by simp)
  refine ⟨heras.1, heras.2, ?_, ?_⟩
  · intro e he
    simp only [DetectMoodEras] at he
    repeat' split at he
    all_goals first
      | (dsimp only at he
         rw [List.mem_insertionSort] at he
         exact buildMoodEras_tracks_sorted env.formatDate _ mcfg.minClusterSize _ e he)
      | simp at he
  · simp only [DetectMoodEras]
    repeat' split
    all_goals first
      | (dsimp only; exact List.Pairwise.nil)
      | (dsimp only
         exact (List.sorted_insertionSort moodEraGE _).imp (fun hab => hab))

/-- Claim C3 counterexample: for tracks added on days 0,1,2 and 9,10,11
with the default 7-day threshold, DetectEras returns two eras whose
start dates are ascending (day 0 first), so the returned era list is
not sorted by StartDate descending as the claim states. -/
theorem claim_C3_counterexample :
    ¬ List.Pairwise (fun a b : Era => b.startDate ≤ a.startDate)
      (DetectEras exDays cfgEx).1 := by decide

-- Conservation.

theorem detectEras_conserves (tracks : List Track) (cfg : Config) :
    (((DetectEras tracks cfg).1.map Era.tracks).flatten ++
      (DetectEras tracks cfg).2).Perm tracks := by
  cases hs : sortTracks tracks with
  | nil =>
    have := sortTracks_eq_nil tracks hs
    subst this
    simp [DetectEras]
  | cons s0 rest =>
    rw [detectEras_eq tracks cfg s0 rest hs, classifyClusters_fst,
      classifyClusters_snd]
    have hsmall : (fun c : List Track => decide ((c.length : Int) < cfg.minClusterSize)) =
        (fun c : List Track => !(decide (cfg.minClusterSize ≤ (c.length : Int)))) := by
      funext c
      by_cases h : cfg.minClusterSize ≤ (c.length : Int)
      · simp [h, not_lt.mpr h]
      · simp [h, not_le.mp h]
    rw [hsmall, ← List.flatten_append]
    have hp := (List.filter_append_perm
      (fun c : List Track => decide (cfg.minClusterSize ≤ (c.length : Int)))
      (buildClustersAux cfg.gapThreshold rest s0 [s0])).flatten
    rw [buildClustersAux_flatten] at hp
    refine hp.trans ?_
    rw [List.singleton_append, ← hs]
    exact sortTracks_perm tracks

theorem buildMoodEras_conserves (formatDate : Int → String)
    (vocabulary : List String) (minClusterSize : Int) :
    ∀ cls, (((buildMoodEras formatDate vocabulary minClusterSize cls).1.map
        MoodEra.tracks).flatten ++
      (buildMoodEras formatDate vocabulary minClusterSize cls).2).Perm
      (cls.map Prod.snd).flatten := by
  intro cls
  induction cls with
  | nil => simp [buildMoodEras]
  | cons hd rest ih =>
    obtain ⟨center, ctracks⟩ := hd
    by_cases h : (ctracks.length : Int) < minClusterSize
    · simp only [buildMoodEras, if_pos h, List.map_cons, List.flatten_cons]
      rw [← List.append_assoc]
      exact (List.perm_append_comm.append_right _).trans
        (by rw [List.append_assoc]; exact ih.append_left ctracks)
    · simp only [buildMoodEras, if_neg h, List.map_cons, List.flatten_cons]
      rw [List.append_assoc]
      exact (List.perm_insertionSort trackLE ctracks).append ih

theorem map_fst_pair (g : Track → List ℚ) (l : List Track) :
    List.map Prod.fst (l.map (fun t => (t, g t))) = l := by
  induction l with
  | nil => rfl
  | cons a l ih => simp [ih]

theorem detectMoodEras_conserves (env : MoodEnv) (tracks : List Track)
    (cfg : TagClusterConfig)
    (hkm : ∀ obs k res, env.km obs k = Except.ok res →
      ((res.map Prod.snd).flatten).Perm (obs.map Prod.fst)) :
    (((DetectMoodEras env tracks cfg).1.map MoodEra.tracks).flatten ++
      (DetectMoodEras env tracks cfg).2).Perm tracks := by
  simp only [DetectMoodEras]
  split
  · rename_i hemp
    have : tracks = [] := by simpa using hemp
    subst this
    simp
  · repeat' split
    all_goals first
      | (dsimp only
         simpa using List.filter_append_perm hasTags tracks)
      | (rename_i result heq
         dsimp only
         have hres := hkm _ _ _ heq
         rw [map_fst_pair] at hres
         rw [← List.append_assoc]
         refine List.Perm.trans (List.Perm.append_right _ ?_)
           (List.filter_append_perm hasTags tracks)
         exact (((List.perm_insertionSort moodEraGE _).map
             MoodEra.tracks).flatten.append_right _).trans
           ((buildMoodEras_conserves env.formatDate _ cfg.minClusterSize
             result).trans hres))

/-- Claim C1: conservation — for every DetectEras call with any Config
and every DetectMoodEras call with any TagClusterConfig (under any
k-means partitioner that conserves its observations), the era members
together with the outliers are a permutation of the input (so every
input track lands in exactly one era or in the outlier list), and in
particular the member counts plus the outlier count equal the input
length. -/
theorem claim_C1 (tracks : List Track) (cfg : Config) (env : MoodEnv)
    (mtracks : List Track) (mcfg : TagClusterConfig)
    (hkm : ∀ obs k res, env.km obs k = Except.ok res →
      ((res.map Prod.snd).flatten).Perm (obs.map Prod.fst)) :
    (((DetectEras tracks cfg).1.map Era.tracks).flatten ++
      (DetectEras tracks cfg).2).Perm tracks ∧
    ((DetectEras tracks cfg).1.map (fun e => e.tracks.length)).sum +
      (DetectEras tracks cfg).2.length = tracks.length ∧
    (((DetectMoodEras env mtracks mcfg).1.map MoodEra.tracks).flatten ++
      (DetectMoodEras env mtracks mcfg).2).Perm mtracks ∧
    ((DetectMoodEras env mtracks mcfg).1.map (fun e => e.tracks.length)).sum +
      (DetectMoodEras env mtracks mcfg).2.length = mtracks.length := by
  have h1 := detectEras_conserves tracks cfg
  have h2 := detectMoodEras_conserves env mtracks mcfg hkm
  refine ⟨h1, ?_, h2, ?_⟩
  · have := h1.length_eq
    simpa [List.length_append, List.length_flatten, List.map_map,
      Function.comp] using this
  · have := h2.length_eq
    simpa [List.length_append, List.length_flatten, List.map_map,
      Function.comp] using this

/-- Witness for claim C1 at a concrete input: six tracks through
DetectEras with the example config, and three tagged tracks through
DetectMoodEras with the default config under the concrete one-cluster
partitioner. -/
theorem claim_C1_witness :
    (((DetectEras exDays cfgEx).1.map Era.tracks).flatten ++
      (DetectEras exDays cfgEx).2).Perm exDays ∧
    ((DetectEras exDays cfgEx).1.map (fun e => e.tracks.length)).sum +
      (DetectEras exDays cfgEx).2.length = exDays.length ∧
    (((DetectMoodEras envTriv exMood DefaultTagClusterConfig).1.map
        MoodEra.tracks).flatten ++
      (DetectMoodEras envTriv exMood DefaultTagClusterConfig).2).Perm exMood ∧
    ((DetectMoodEras envTriv exMood DefaultTagClusterConfig).1.map
        (fun e => e.tracks.length)).sum +
      (DetectMoodEras envTriv exMood DefaultTagClusterConfig).2.length =
      exMood.length :=
  claim_C1 exDays cfgEx envTriv exMood DefaultTagClusterConfig
    (by
      intro obs k res h
      have hres : res = [(([] : List ℚ), obs.map Prod.fst)] := by
        simpa [envTriv] using h.symm
      subst hres
      simp)

-- Outlier demotion is wholesale.

theorem buildMoodEras_snd_eq (formatDate : Int → String)
    (vocabulary : List String) (minClusterSize : Int) :
    ∀ cls, (buildMoodEras formatDate vocabulary minClusterSize cls).2 =
      ((cls.map Prod.snd).filter
        (fun c => decide ((c.length : Int) < minClusterSize))).flatten := by
  intro cls
  induction cls with
  | nil => simp [buildMoodEras]
  | cons hd rest ih =>
    obtain ⟨center, ctracks⟩ := hd
    by_cases h : (ctracks.length : Int) < minClusterSize
    · simp [buildMoodEras, h, ih]
    · simp [buildMoodEras, h, ih]

theorem buildMoodEras_fst_eq (formatDate : Int → String)
    (vocabulary : List String) (minClusterSize : Int) :
    ∀ cls, (buildMoodEras formatDate vocabulary minClusterSize cls).1.map
        MoodEra.tracks =
      ((cls.map Prod.snd).filter
        (fun c => decide (minClusterSize ≤ (c.length : Int)))).map
        (fun c => List.insertionSort trackLE c) := by
  intro cls
  induction cls with
  | nil => simp [buildMoodEras]
  | cons hd rest ih =>
    obtain ⟨center, ctracks⟩ := hd
    by_cases h : (ctracks.length : Int) < minClusterSize
    · have h2 : ¬ minClusterSize ≤ (ctracks.length : Int) := not_le.mpr h
      simp [buildMoodEras, h, h2, ih]
    · have h2 : minClusterSize ≤ (ctracks.length : Int) := not_lt.mp h
      simp [buildMoodEras, h, h2, ih]

/-- Claim C9: wholesale outlier demotion — in DetectEras the returned
eras are exactly the runs of size at least minClusterSize and the
outlier list is exactly the concatenation of the runs smaller than
minClusterSize; in the cluster-consumption loop of DetectMoodEras the
outliers are exactly the concatenation of the clusters smaller than
minClusterSize and the era member lists are exactly the sorted large
clusters.  A run or cluster is never split between an era and the
outliers. -/
theorem claim_C9 (tracks : List Track) (cfg : Config) (s0 : Track)
    (rest : List Track) (hs : sortTracks tracks = s0 :: rest)
    (formatDate : Int → String) (vocabulary : List String)
    (minClusterSize : Int) (cls : List (List ℚ × List Track)) :
    (DetectEras tracks cfg).1.map Era.tracks =
      (buildClustersAux cfg.gapThreshold rest s0 [s0]).filter
        (fun c => decide (cfg.minClusterSize ≤ (c.length : Int))) ∧
    (DetectEras tracks cfg).2 =
      ((buildClustersAux cfg.gapThreshold rest s0 [s0]).filter
        (fun c => decide ((c.length : Int) < cfg.minClusterSize))).flatten ∧
    (buildMoodEras formatDate vocabulary minClusterSize cls).2 =
      ((cls.map Prod.snd).filter
        (fun c => decide ((c.length : Int) < minClusterSize))).flatten ∧
    (buildMoodEras formatDate vocabulary minClusterSize cls).1.map
        MoodEra.tracks =
      ((cls.map Prod.snd).filter
        (fun c => decide (minClusterSize ≤ (c.length : Int)))).map
        (fun c => List.insertionSort trackLE c) := by
  rw [detectEras_eq tracks cfg s0 rest hs]
  exact ⟨classifyClusters_fst cfg.minClusterSize _,
    classifyClusters_snd cfg.minClusterSize _,
    buildMoodEras_snd_eq formatDate vocabulary minClusterSize cls,
    buildMoodEras_fst_eq formatDate vocabulary minClusterSize cls⟩

/-- Witness for claim C9 at a concrete input: the six example tracks
(already in ascending order) and a concrete two-cluster list with one
small and one large cluster. -/
theorem claim_C9_witness :
    (DetectEras exDays cfgEx).1.map Era.tracks =
      (buildClustersAux cfgEx.gapThreshold
        [mkT "2" day, mkT "3" (2 * day), mkT "4" (9 * day),
         mkT "5" (10 * day), mkT "6" (11 * day)] (mkT "1" 0) [mkT "1" 0]).filter
        (fun c => decide (cfgEx.minClusterSize ≤ (c.length : Int))) ∧
    (DetectEras exDays cfgEx).2 =
      ((buildClustersAux cfgEx.gapThreshold
        [mkT "2" day, mkT "3" (2 * day), mkT "4" (9 * day),
         mkT "5" (10 * day), mkT "6" (11 * day)] (mkT "1" 0) [mkT "1" 0]).filter
        (fun c => decide ((c.length : Int) < cfgEx.minClusterSize))).flatten ∧
    (buildMoodEras (fun _ => "d") ["rock"] 3
      [(([] : List ℚ), [mkR "1" 30]), ([], [mkR "1" 30, mkR "2" 10, mkR "3" 20])]).2 =
      (([(([] : List ℚ), [mkR "1" 30]),
         ([], [mkR "1" 30, mkR "2" 10, mkR "3" 20])].map Prod.snd).filter
        (fun c => decide ((c.length : Int) < 3))).flatten ∧
    (buildMoodEras (fun _ => "d") ["rock"] 3
      [(([] : List ℚ), [mkR "1" 30]), ([], [mkR "1" 30, mkR "2" 10, mkR "3" 20])]).1.map
        MoodEra.tracks =
      (([(([] : List ℚ), [mkR "1" 30]),
         ([], [mkR "1" 30, mkR "2" 10, mkR "3" 20])].map Prod.snd).filter
        (fun c => decide (3 ≤ (c.length : Int)))).map
        (fun c => List.insertionSort trackLE c) :=
  claim_C9 exDays cfgEx (mkT "1" 0)
    [mkT "2" day, mkT "3" (2 * day), mkT "4" (9 * day),
     mkT "5" (10 * day), mkT "6" (11 * day)] (by decide)
    (fun _ => "d") ["rock"] 3
    [(([] : List ℚ), [mkR "1" 30]), ([], [mkR "1" 30, mkR "2" 10, mkR "3" 20])]

-- Default substitution.

/-- Claim C10: DetectMoodEras with NumClusters at most 0 behaves
exactly as with NumClusters 3, and with MaxTags at most 0 exactly as
with MaxTags 50, but MinClusterSize is used as given with no default or
lower bound: with MinClusterSize at most 0 the cluster-consumption loop
never demotes a cluster to the outliers. -/
theorem claim_C10 (env : MoodEnv) (tracks : List Track)
    (cfgN cfgM : TagClusterConfig) (formatDate : Int → String)
    (vocabulary : List String) (minClusterSize : Int)
    (cls : List (List ℚ × List Track))
    (hn : cfgN.numClusters ≤ 0) (hm : cfgM.maxTags ≤ 0)
    (hmin : minClusterSize ≤ 0) :
    DetectMoodEras env tracks cfgN =
      DetectMoodEras env tracks { cfgN with numClusters := 3 } ∧
    DetectMoodEras env tracks cfgM =
      DetectMoodEras env tracks { cfgM with maxTags := 50 } ∧
    (buildMoodEras formatDate vocabulary minClusterSize cls).2 = [] := by
  refine ⟨?_, ?_, ?_⟩
  · simp [DetectMoodEras, hn, DefaultTagClusterConfig]
  · simp [DetectMoodEras, hm, DefaultTagClusterConfig]
  · rw [buildMoodEras_snd_eq]
    have : (cls.map Prod.snd).filter
        (fun c => decide ((c.length : Int) < minClusterSize)) = [] := by
      rw [List.filter_eq_nil_iff]
      intro c _
      simp only [decide_eq_true_eq, not_lt]
      exact le_trans hmin (Int.ofNat_nonneg c.length)
    rw [this]
    rfl

/-- Witness for claim C10 at a concrete input: a config with
NumClusters 0, a config with MaxTags 0, MinClusterSize 0 and a concrete
singleton cluster list. -/
theorem claim_C10_witness :
    DetectMoodEras envTriv exMood
        { numClusters := 0, minClusterSize := 3, maxTags := 50 } =
      DetectMoodEras envTriv exMood
        { numClusters := 3, minClusterSize := 3, maxTags := 50 } ∧
    DetectMoodEras envTriv exMood
        { numClusters := 3, minClusterSize := 3, maxTags := 0 } =
      DetectMoodEras envTriv exMood
        { numClusters := 3, minClusterSize := 3, maxTags := 50 } ∧
    (buildMoodEras (fun _ => "d") ["rock"] 0 [([], [mkR "1" 30])]).2 = [] :=
  claim_C10 envTriv exMood
    { numClusters := 0, minClusterSize := 3, maxTags := 50 }
    { numClusters := 3, minClusterSize := 3, maxTags := 0 }
    (fun _ => "d") ["rock"] 0 [([], [mkR "1" 30])]
    (by decide) (by decide) (by decide)

-- Non-mutation.

/-- Claim C7: non-mutation of the input — with the caller's slice
threaded explicitly through the call, DetectEras and DetectMoodEras
return the caller's slice unchanged (the source sorts a fresh copy,
respectively fresh per-cluster copies), while computing the same result
as the plain functions. -/
theorem claim_C7 (tracks : List Track) (cfg : Config) (env : MoodEnv)
    (mtracks : List Track) (mcfg : TagClusterConfig) :
    (DetectErasImp tracks cfg).2 = tracks ∧
    (DetectErasImp tracks cfg).1 = DetectEras tracks cfg ∧
    (DetectMoodErasImp env mtracks mcfg).2 = mtracks ∧
    (DetectMoodErasImp env mtracks mcfg).1 = DetectMoodEras env mtracks mcfg := by
  refine ⟨?_, ?_, rfl, rfl⟩
  · unfold DetectErasImp
    split
    · rfl
    · split <;> rfl
  · unfold DetectErasImp DetectEras
    split
    · rfl
    · split <;> rfl

-- The oversized-era splitter.

theorem sliceSegments_length :
    ∀ (cuts : List Nat) (tracks : List Track) (start : Nat),
      (sliceSegments tracks start cuts).length = cuts.length + 1 := by
  intro cuts
  induction cuts with
  | nil => intro tracks start; rfl
  | cons c rest ih => intro tracks start; simp [sliceSegments, ih]

theorem sliceSegments_flatten :
    ∀ (cuts : List Nat) (tracks : List Track) (start : Nat),
      List.Chain' (fun a b => a ≤ b) (start :: cuts) →
      (sliceSegments tracks start cuts).flatten = tracks.drop start := by
  intro cuts
  induction cuts with
  | nil => intro tracks start _; simp [sliceSegments]
  | cons c rest ih =>
    intro tracks start hchain
    obtain ⟨hsc, hchain2⟩ := List.chain'_cons'.mp hchain
    have hsc2 : start ≤ c := hsc c rfl
    simp only [sliceSegments, List.flatten_cons]
    rw [ih tracks c hchain2]
    have h1 : tracks.drop c = (tracks.drop start).drop (c - start) := by
      rw [List.drop_drop]
      congr 1
      omega
    rw [h1, List.take_append_drop]

theorem gapsOf_length (tracks : List Track) :
    (gapsOf tracks).length = tracks.length - 1 := by
  simp only [gapsOf, List.length_map, List.enum_length, List.length_zip,
    List.length_tail]
  omega

theorem splitCuts_length (tracks : List Track) (n : Nat)
    (h : n ≤ tracks.length - 1) : (splitCuts tracks n).length = n := by
  simp only [splitCuts, List.length_map, List.length_take,
    List.length_insertionSort, gapsOf_length]
  omega

theorem map_tracks_enum_map (segs : List (List Track)) (total : Int) :
    ((segs.enum.map (fun p =>
      ({ tracks := p.2
         startDate := ((p.2.head?).map Track.addedAt).getD 0
         endDate := ((p.2.getLast?).map Track.addedAt).getD 0
         splitIndex := (p.1 : Int) + 1
         splitTotal := total } : Era))).map Era.tracks) = segs := by
  rw [List.map_map]
  exact List.enum_map_snd segs

theorem splitEra_spec (era : Era) (maxTracks : Int) (hpos : 0 < maxTracks)
    (hbig : maxTracks < (era.tracks.length : Int)) :
    (splitEra era maxTracks).length =
      (era.tracks.length + maxTracks.toNat - 1) / maxTracks.toNat ∧
    ((splitEra era maxTracks).map Era.tracks).flatten = era.tracks ∧
    (∀ i (h : i < (splitEra era maxTracks).length),
      ((splitEra era maxTracks).get ⟨i, h⟩).splitIndex = (i : Int) + 1 ∧
      ((splitEra era maxTracks).get ⟨i, h⟩).splitTotal =
        (((era.tracks.length + maxTracks.toNat - 1) / maxTracks.toNat : Nat) : Int)) := by
  have hm1 : 1 ≤ maxTracks.toNat := by omega
  have hmk : maxTracks.toNat < era.tracks.length := by omega
  have hq2 : 2 ≤ (era.tracks.length + maxTracks.toNat - 1) / maxTracks.toNat := by
    rw [Nat.le_div_iff_mul_le (by omega : 0 < maxTracks.toNat)]
    omega
  have hqk : (era.tracks.length + maxTracks.toNat - 1) / maxTracks.toNat ≤
      era.tracks.length := by
    have hkm : era.tracks.length ≤ era.tracks.length * maxTracks.toNat :=
      Nat.le_mul_of_pos_right era.tracks.length (by omega)
    have hlt : era.tracks.length + maxTracks.toNat - 1 <
        (era.tracks.length + 1) * maxTracks.toNat := by
      have hmul : (era.tracks.length + 1) * maxTracks.toNat =
          era.tracks.length * maxTracks.toNat + maxTracks.toNat := by ring
      omega
    have := (Nat.div_lt_iff_lt_mul
      (by omega : 0 < maxTracks.toNat)).mpr hlt
    omega
  have hcast : Int.tdiv ((era.tracks.length : Int) + maxTracks - 1) maxTracks =
      (((era.tracks.length + maxTracks.toNat - 1) / maxTracks.toNat : Nat) : Int) := by
    have hmt : maxTracks = ((maxTracks.toNat : Nat) : Int) := by omega
    rw [hmt]
    have h1 : ((era.tracks.length : Nat) : Int) + ((maxTracks.toNat : Nat) : Int) - 1 =
        ((era.tracks.length + maxTracks.toNat - 1 : Nat) : Int) := by
      omega
    rw [h1]
    rfl
  have hne : ¬ ((((era.tracks.length + maxTracks.toNat - 1) / maxTracks.toNat :
      Nat) : Int) - 1 = 0) := by omega
  have htn : ((((era.tracks.length + maxTracks.toNat - 1) / maxTracks.toNat :
      Nat) : Int) - 1).toNat =
      (era.tracks.length + maxTracks.toNat - 1) / maxTracks.toNat - 1 := by omega
  have hcl : (splitCuts era.tracks
      ((era.tracks.length + maxTracks.toNat - 1) / maxTracks.toNat - 1)).length =
      (era.tracks.length + maxTracks.toNat - 1) / maxTracks.toNat - 1 :=
    splitCuts_length _ _ (by omega)
  have hchain : List.Chain' (fun a b => a ≤ b)
      (0 :: (splitCuts era.tracks
        ((era.tracks.length + maxTracks.toNat - 1) / maxTracks.toNat -
          1)).insertionSort (fun a b => a ≤ b)) := by
    refine List.chain'_cons'.mpr ⟨fun y _ => Nat.zero_le y, ?_⟩
    rw [List.chain'_iff_pairwise]
    exact List.sorted_insertionSort _ _
  have hsplit : splitEra era maxTracks =
      (sliceSegments era.tracks 0
        ((splitCuts era.tracks
          ((era.tracks.length + maxTracks.toNat - 1) / maxTracks.toNat -
            1)).insertionSort (fun a b => a ≤ b))).enum.map
        (fun p =>
          { tracks := p.2
            startDate := ((p.2.head?).map Track.addedAt).getD 0
            endDate := ((p.2.getLast?).map Track.addedAt).getD 0
            splitIndex := (p.1 : Int) + 1
            splitTotal := (((era.tracks.length + maxTracks.toNat - 1) /
              maxTracks.toNat : Nat) : Int) }) := by
    simp only [splitEra, hcast, if_neg hne, htn]
  rw [hsplit]
  refine ⟨?_, ?_, ?_⟩
  · rw [List.length_map, List.enum_length, sliceSegments_length,
      List.length_insertionSort, hcl]
    omega
  · rw [map_tracks_enum_map, sliceSegments_flatten _ _ _ hchain, List.drop_zero]
  · intro i h
    simp [List.get_eq_getElem, List.getElem_map, List.getElem_enum]

/-- Claim C2 (amended): for maxTracks at most 0, SplitLargeEras
returns the input list unchanged (splitting disabled); for
maxTracks > 0, every oversized era is split into
ceil(len / maxTracks) sub-eras whose member lists concatenate back to
the original era's members — but an individual sub-era may exceed
maxTracks members, since the cuts are placed at the largest internal
gaps rather than at size boundaries, so the claimed size bound does not
hold. -/
theorem claim_C2 (eras : List Era) (era : Era) (mneg maxTracks : Int)
    (hneg : mneg ≤ 0) (hpos : 0 < maxTracks)
    (hbig : maxTracks < (era.tracks.length : Int)) :
    SplitLargeEras eras mneg = eras ∧
    (splitEra era maxTracks).length =
      (era.tracks.length + maxTracks.toNat - 1) / maxTracks.toNat ∧
    ((splitEra era maxTracks).map Era.tracks).flatten = era.tracks := by
  refine ⟨?_, (splitEra_spec era maxTracks hpos hbig).1,
    (splitEra_spec era maxTracks hpos hbig).2.1⟩
  unfold SplitLargeEras
  rw [if_pos hneg]

/-- Claim C2 counterexample: an era of 12 tracks whose single largest
internal gap sits right after the first track, split with maxTracks 10,
yields sub-eras of sizes 1 and 11 — the second exceeds maxTracks. -/
theorem claim_C2_counterexample :
    ¬ ∀ e ∈ SplitLargeEras [eraSkewed] 10, (e.tracks.length : Int) ≤ 10 := by
  decide

/-- Witness for claim C2 at a concrete input: splitting is disabled for
maxTracks 0, and the 12-track era with an internal gap splits into
ceil(12/10) = 2 sub-eras that concatenate back to the original. -/
theorem claim_C2_witness :
    SplitLargeEras [eraBalanced] 0 = [eraBalanced] ∧
    (splitEra eraBalanced 10).length =
      (eraBalanced.tracks.length + (10 : Int).toNat - 1) / (10 : Int).toNat ∧
    ((splitEra eraBalanced 10).map Era.tracks).flatten = eraBalanced.tracks :=
  claim_C2 [eraBalanced] eraBalanced 0 10 (by decide) (by decide) (by decide)

/-- Claim C8: splitter algorithm exactness — for an era with more than
maxTracks > 0 members, splitEra produces exactly
ceil(len / maxTracks) sub-eras whose member lists concatenate back to
the original members in original order, each sub-era carries SplitIndex
equal to its 1-based position and SplitTotal equal to the number of
sub-eras; the cut indices are the positions of the largest gaps (every
selected gap is at least as large as every unselected one) and are
applied in ascending positional order; eras with at most maxTracks
members are passed through unchanged, keeping their position relative
to other eras (an era built by mkEra carries SplitIndex 0 and
SplitTotal 0, which pass-through preserves). -/
theorem claim_C8 (era : Era) (maxTracks : Int) (e0 : Era) (rest2 : List Era)
    (hpos : 0 < maxTracks) (hbig : maxTracks < (era.tracks.length : Int)) :
    SplitLargeEras (e0 :: rest2) maxTracks =
      (if (e0.tracks.length : Int) ≤ maxTracks then [e0]
        else splitEra e0 maxTracks) ++ SplitLargeEras rest2 maxTracks ∧
    (mkEra era.tracks).splitIndex = 0 ∧ (mkEra era.tracks).splitTotal = 0 ∧
    (splitEra era maxTracks).length =
      (era.tracks.length + maxTracks.toNat - 1) / maxTracks.toNat ∧
    ((splitEra era maxTracks).map Era.tracks).flatten = era.tracks ∧
    (∀ i (h : i < (splitEra era maxTracks).length),
      ((splitEra era maxTracks).get ⟨i, h⟩).splitIndex = (i : Int) + 1 ∧
      ((splitEra era maxTracks).get ⟨i, h⟩).splitTotal =
        (((era.tracks.length + maxTracks.toNat - 1) / maxTracks.toNat :
          Nat) : Int)) ∧
    (∀ sel ∈ ((gapsOf era.tracks).insertionSort sndDesc).take
        ((era.tracks.length + maxTracks.toNat - 1) / maxTracks.toNat - 1),
      ∀ oth ∈ ((gapsOf era.tracks).insertionSort sndDesc).drop
        ((era.tracks.length + maxTracks.toNat - 1) / maxTracks.toNat - 1),
      oth.2 ≤ sel.2) ∧
    List.Pairwise (fun a b : Nat => a ≤ b)
      ((splitCuts era.tracks
        ((era.tracks.length + maxTracks.toNat - 1) / maxTracks.toNat -
          1)).insertionSort (fun a b => a ≤ b)) ∧
    ((splitCuts era.tracks
        ((era.tracks.length + maxTracks.toNat - 1) / maxTracks.toNat -
          1)).insertionSort (fun a b => a ≤ b)).Perm
      (splitCuts era.tracks
        ((era.tracks.length + maxTracks.toNat - 1) / maxTracks.toNat - 1)) := by
  have hspec := splitEra_spec era maxTracks hpos hbig
  refine ⟨?_, rfl, rfl, hspec.1, hspec.2.1, hspec.2.2, ?_, ?_, ?_⟩
  · unfold SplitLargeEras
    simp only [if_neg (not_le.mpr hpos)]
    by_cases h0 : (e0.tracks.length : Int) ≤ maxTracks
    · simp [splitLoop, h0]
    · simp [splitLoop, h0]
  · intro sel hsel oth hoth
    have hsorted : List.Pairwise sndDesc
        ((gapsOf era.tracks).insertionSort sndDesc) :=
      List.sorted_insertionSort sndDesc (gapsOf era.tracks)
    have hsplit : List.Pairwise sndDesc
        (((gapsOf era.tracks).insertionSort sndDesc).take
          ((era.tracks.length + maxTracks.toNat - 1) / maxTracks.toNat - 1) ++
        ((gapsOf era.tracks).insertionSort sndDesc).drop
          ((era.tracks.length + maxTracks.toNat - 1) / maxTracks.toNat - 1)) := by
      rw [List.take_append_drop]
      exact hsorted
    exact (List.pairwise_append.mp hsplit).2.2 sel hsel oth hoth
  · exact List.sorted_insertionSort _ _
  · exact List.perm_insertionSort _ _

/-- Witness for claim C8 at a concrete input: the 12-track era with an
internal gap after the 5th track and maxTracks 10 yields sub-eras whose
count matches ceil(12/10) and whose members concatenate back, with a
small era passed through in front. -/
theorem claim_C8_witness :
    (splitEra eraBalanced 10).length =
      (eraBalanced.tracks.length + (10 : Int).toNat - 1) / (10 : Int).toNat ∧
    ((splitEra eraBalanced 10).map Era.tracks).flatten = eraBalanced.tracks ∧
    SplitLargeEras [mkEra [mkT "x" 0], eraBalanced] 10 =
      (if ((mkEra [mkT "x" 0]).tracks.length : Int) ≤ 10 then [mkEra [mkT "x" 0]]
        else splitEra (mkEra [mkT "x" 0]) 10) ++ SplitLargeEras [eraBalanced] 10 :=
  ⟨(claim_C8 eraBalanced 10 (mkEra [mkT "x" 0]) [eraBalanced]
      (by decide) (by decide)).2.2.2.1,
   (claim_C8 eraBalanced 10 (mkEra [mkT "x" 0]) [eraBalanced]
      (by decide) (by decide)).2.2.2.2.1,
   (claim_C8 eraBalanced 10 (mkEra [mkT "x" 0]) [eraBalanced]
      (by decide) (by decide)).1⟩

-- Zero-weight tags.

theorem bumpCount_ne_nil :
    ∀ (m : List (String × Int)) (name : String) (c : Int),
      bumpCount m name c ≠ [] := by
  intro m
  induction m with
  | nil => intro name c; simp [bumpCount]
  | cons hd rest ih =>
    intro name c
    obtain ⟨n, k⟩ := hd
    by_cases h : n = name
    · simp [bumpCount, h]
    · simp [bumpCount, h]

theorem tagsFold_ne_nil :
    ∀ (tags : List Tag) (m : List (String × Int)),
      (m ≠ [] ∨ tags ≠ []) →
      tags.foldl (fun m2 tag => bumpCount m2 (strToLower tag.name) tag.count) m ≠ [] := by
  intro tags
  induction tags with
  | nil =>
    intro m h
    rcases h with h | h
    · exact h
    · exact absurd rfl h
  | cons a l ih =>
    intro m _
    rw [List.foldl_cons]
    exact ih (bumpCount m (strToLower a.name) a.count)
      (Or.inl (bumpCount_ne_nil m _ _))

theorem tracksFold_ne_nil :
    ∀ (tracks : List Track) (m : List (String × Int)),
      (m ≠ [] ∨ ∃ t ∈ tracks, t.tags ≠ []) →
      tracks.foldl
        (fun m2 t => t.tags.foldl
          (fun m3 tag => bumpCount m3 (strToLower tag.name) tag.count) m2) m ≠ [] := by
  intro tracks
  induction tracks with
  | nil =>
    intro m h
    rcases h with h | h
    · exact h
    · simp at h
  | cons t l ih =>
    intro m h
    rw [List.foldl_cons]
    rcases h with h | h
    · exact ih _ (Or.inl (by
        by_cases ht : t.tags = []
        · simpa [ht] using h
        · exact tagsFold_ne_nil t.tags m (Or.inr ht)))
    · obtain ⟨u, hu, hune⟩ := h
      rcases List.mem_cons.mp hu with rfl | hul
      · exact ih _ (Or.inl (tagsFold_ne_nil u.tags m (Or.inr hune)))
      · exact ih _ (Or.inr ⟨u, hul, hune⟩)

theorem tagCounts_ne_nil (tracks : List Track)
    (h : ∃ t ∈ tracks, t.tags ≠ []) : tagCounts tracks ≠ [] :=
  tracksFold_ne_nil tracks [] (Or.inr h)

theorem buildTagVocabulary_ne_nil (tracks : List Track) (maxTags : Int)
    (hmax : 1 ≤ maxTags) (hsome : ∃ t ∈ tracks, t.tags ≠ []) :
    buildTagVocabulary tracks maxTags ≠ [] := by
  have h1 : tagCounts tracks ≠ [] := tagCounts_ne_nil tracks hsome
  have hlen : 1 ≤ (tagCounts tracks).length := by
    cases hc : tagCounts tracks with
    | nil => exact absurd hc h1
    | cons a l => simp
  intro hcon
  simp only [buildTagVocabulary] at hcon
  have h2 := List.map_eq_nil_iff.mp hcon
  rcases List.take_eq_nil_iff.mp h2 with h3 | h3
  · rw [List.length_insertionSort] at h3
    rcases le_total maxTags ((tagCounts tracks).length : Int) with hmin | hmin
    · rw [min_eq_left hmin] at h3
      omega
    · rw [min_eq_right hmin] at h3
      omega
  · have := congrArg List.length h3
    rw [List.length_insertionSort] at this
    simp at this
    exact absurd this h1

theorem set_replicate_zero (n i : Nat) :
    (List.replicate n (0 : ℚ)).set i 0 = List.replicate n 0 := by
  rw [List.eq_replicate_iff]
  refine ⟨by simp, ?_⟩
  intro b hb
  rcases List.mem_or_eq_of_mem_set hb with h | h
  · exact List.eq_of_mem_replicate h
  · exact h

theorem maxCount_zero (tags : List Tag) (h : ∀ tg ∈ tags, tg.count = 0) :
    tags.foldl (fun m tag => if m < tag.count then tag.count else m) 0 = 0 := by
  induction tags with
  | nil => rfl
  | cons a l ih =>
    have ha : a.count = 0 := h a (by simp)
    rw [List.foldl_cons, ha, if_neg (lt_irrefl 0)]
    exact ih (fun tg htg => h tg (by simp [htg]))

theorem applyTag_fold_zero (vocab : List String) (mc : Int) :
    ∀ (tags : List Tag), (∀ tg ∈ tags, tg.count = 0) → ∀ n,
      tags.foldl (applyTag vocab mc) (List.replicate n 0) =
        List.replicate n 0 := by
  intro tags
  induction tags with
  | nil => intro _ n; rfl
  | cons a l ih =>
    intro h n
    have ha : a.count = 0 := h a (by simp)
    have hstep : applyTag vocab mc (List.replicate n 0) a =
        List.replicate n 0 := by
      unfold applyTag
      cases hidx : vocab.indexOf? (strToLower a.name) with
      | none => rfl
      | some idx => rw [ha]; simp [set_replicate_zero]
    rw [List.foldl_cons, hstep]
    exact ih (fun tg htg => h tg (by simp [htg])) n

theorem buildTagVector_zero (t : Track) (vocab : List String)
    (h : ∀ tg ∈ t.tags, tg.count = 0) :
    buildTagVector t vocab = List.replicate vocab.length 0 := by
  simp only [buildTagVector]
  rw [maxCount_zero t.tags h, if_pos rfl]
  exact applyTag_fold_zero vocab 1 t.tags h vocab.length

/-- Claim C4 (amended): for a DetectMoodEras input whose tagged tracks
all carry only zero-weight tags, the vocabulary is NOT empty — it holds
the (lower-cased) tag names with aggregate weight 0, so the
empty-vocabulary early return is not taken; instead every tagged
track's feature vector is the all-zero vector and the outcome is
delegated to the k-means call. -/
theorem claim_C4 (tracks : List Track) (maxTags : Int)
    (hmax : 1 ≤ maxTags)
    (hsome : ∃ t ∈ tracks, t.tags ≠ [])
    (hzero : ∀ t ∈ tracks, ∀ tg ∈ t.tags, tg.count = 0) :
    buildTagVocabulary tracks maxTags ≠ [] ∧
    ∀ t ∈ tracks, buildTagVector t (buildTagVocabulary tracks maxTags) =
      List.replicate (buildTagVocabulary tracks maxTags).length 0 := by
  refine ⟨buildTagVocabulary_ne_nil tracks maxTags hmax hsome, ?_⟩
  intro t ht
  exact buildTagVector_zero t _ (hzero t ht)

/-- Claim C4 counterexample: three tracks each carrying one tag of
weight 0 satisfy the claim's premise (at least numClusters = 3 tagged
tracks, every weight 0), yet the vocabulary DetectMoodEras builds from
them is ["rock"], not empty. -/
theorem claim_C4_counterexample :
    ztracks ≠ [] ∧
    (ztracks.filter hasTags).length = 3 ∧
    (3 : Int) = DefaultTagClusterConfig.numClusters ∧
    (∀ t ∈ ztracks, ∀ tg ∈ t.tags, tg.count = 0) ∧
    buildTagVocabulary (ztracks.filter hasTags)
      DefaultTagClusterConfig.maxTags = ["rock"] := by
  decide

/-- Witness for claim C4 at a concrete input: the three zero-weight
tracks produce a nonempty vocabulary and all-zero feature vectors. -/
theorem claim_C4_witness :
    buildTagVocabulary ztracks 50 ≠ [] ∧
    ∀ t ∈ ztracks, buildTagVector t (buildTagVocabulary ztracks 50) =
      List.replicate (buildTagVocabulary ztracks 50).length 0 :=
  claim_C4 ztracks 50 (by decide)
    ⟨mkZ "1" 1, by decide, by decide⟩ (by decide)

-- The tag service.

theorem fetchOne_trackID
    (fetch : String → String → Except String (List TagsService.LfmTag))
    (cancelObserved : Bool) (ctxErr : String) (t : TagsService.Track) :
    (TagsService.fetchOne fetch cancelObserved ctxErr t).trackID = t.id := by
  unfold TagsService.fetchOne
  split
  · rfl
  · split <;> rfl

/-- Claim C6 (amended): FetchTagsForTracks returns one result per input
track in input order — result i is the per-item function of track i,
the fetch outcome for track i and the cancellation flag observed for
item i alone, so a fetch error for one track is recorded only in that
track's result (source "none", empty tags, error set) and every other
result is unaffected; the batch error is nil when the context was not
cancelled, and under cancellation the (possibly partial) result list is
returned alongside the cancellation error — except for an empty input,
where the call returns an empty list and a nil batch error even under
cancellation. -/
theorem claim_C6
    (fetch : String → String → Except String (List TagsService.LfmTag))
    (cancelObserved : Nat → Bool) (ctxErr : String) (finalCancelled : Bool)
    (tracks : List TagsService.Track) :
    (TagsService.FetchTagsForTracks fetch cancelObserved ctxErr finalCancelled
      tracks).1.length = tracks.length ∧
    (∀ i, i < tracks.length →
      (TagsService.FetchTagsForTracks fetch cancelObserved ctxErr
        finalCancelled tracks).1.getD i default =
        TagsService.fetchOne fetch (cancelObserved i) ctxErr
          (tracks.getD i default)) ∧
    (∀ i, i < tracks.length →
      ((TagsService.FetchTagsForTracks fetch cancelObserved ctxErr
        finalCancelled tracks).1.getD i default).trackID =
        (tracks.getD i default).id) ∧
    (∀ i, i < tracks.length → ∀ e, cancelObserved i = false →
      fetch (tracks.getD i default).artist (tracks.getD i default).name =
        Except.error e →
      (TagsService.FetchTagsForTracks fetch cancelObserved ctxErr
        finalCancelled tracks).1.getD i default =
        { trackID := (tracks.getD i default).id, tags := []
          source := "none", error := some e }) ∧
    (finalCancelled = false →
      (TagsService.FetchTagsForTracks fetch cancelObserved ctxErr
        finalCancelled tracks).2 = none) ∧
    (finalCancelled = true → tracks ≠ [] →
      (TagsService.FetchTagsForTracks fetch cancelObserved ctxErr
        finalCancelled tracks).2 = some ctxErr) ∧
    (tracks = [] →
      TagsService.FetchTagsForTracks fetch cancelObserved ctxErr
        finalCancelled tracks = ([], none)) := by
  by_cases hnil : tracks = []
  · subst hnil
    refine ⟨rfl, ?_, ?_, ?_, fun _ => rfl, fun _ h => absurd rfl h, fun _ => rfl⟩
    all_goals intro i hi; simp at hi
  · have hval : TagsService.FetchTagsForTracks fetch cancelObserved ctxErr
        finalCancelled tracks =
        (tracks.enum.map (fun p =>
          TagsService.fetchOne fetch (cancelObserved p.1) ctxErr p.2),
         if finalCancelled then some ctxErr else none) := by
      unfold TagsService.FetchTagsForTracks
      rw [if_neg (by simpa [List.isEmpty_iff] using hnil)]
    have hget : ∀ i, i < tracks.length →
        (TagsService.FetchTagsForTracks fetch cancelObserved ctxErr
          finalCancelled tracks).1.getD i default =
          TagsService.fetchOne fetch (cancelObserved i) ctxErr
            (tracks.getD i default) := by
      intro i hi
      rw [hval]
      have hi2 : i < (tracks.enum.map (fun p =>
          TagsService.fetchOne fetch (cancelObserved p.1) ctxErr p.2)).length := by
        simpa [List.enum_length] using hi
      rw [List.getD_eq_getElem _ _ hi2, List.getD_eq_getElem _ _ hi]
      simp [List.getElem_enum]
    refine ⟨?_, hget, ?_, ?_, ?_, ?_, fun h => absurd h hnil⟩
    · rw [hval]
      simp [List.enum_length]
    · intro i hi
      rw [hget i hi]
      exact fetchOne_trackID fetch (cancelObserved i) ctxErr (tracks.getD i default)
    · intro i hi e hc hf
      rw [hget i hi]
      unfold TagsService.fetchOne
      rw [if_neg (by simp [hc]), hf]
    · intro h
      rw [hval]
      simp [h]
    · intro h _
      rw [hval]
      simp [h]

/-- Claim C6 counterexample: for the empty track list with the
cancellation signal already fired, the call returns a nil batch error,
not the cancellation error the claim requires alongside the (empty)
result list. -/
theorem claim_C6_counterexample :
    (TagsService.FetchTagsForTracks fetchEx (fun _ => true) "context canceled"
      true []).2 = none ∧
    (none : Option String) ≠ some "context canceled" :=
  ⟨rfl, by decide⟩

/-- Witness for claim C6 at a concrete input: two tracks, the second of
which fails to fetch, with no cancellation: one result per input, the
failing track's result records the error with source "none" and empty
tags, and the batch error is nil. -/
theorem claim_C6_witness :
    (TagsService.FetchTagsForTracks fetchEx (fun _ => false) "context canceled"
      false tracksEx).1.length = tracksEx.length ∧
    (TagsService.FetchTagsForTracks fetchEx (fun _ => false) "context canceled"
      false tracksEx).1.getD 1 default =
      { trackID := (tracksEx.getD 1 default).id, tags := []
        source := "none", error := some "lookup failed" } ∧
    (TagsService.FetchTagsForTracks fetchEx (fun _ => false) "context canceled"
      false tracksEx).2 = none := by
  have h := claim_C6 fetchEx (fun _ => false) "context canceled" false tracksEx
  exact ⟨h.1, h.2.2.2.1 1 (by decide) "lookup failed" rfl rfl,
    h.2.2.2.2.1 rfl⟩

end SpotifyEras